import Mathlib

/-!
Verification of the `binary` serialization package (package `binary`, a fork of
Go's `encoding/binary`).  The repository ships the package's test file
(`src/unnamed/part_001`); the implementation itself (`ByteOrder` with its
`PutUint16/32/64` and `Uint16/32/64` primitives, `Write`, `Read`, `dataSize`)
is not in the snapshot, so those operations are modelled from the spec
(sections 3, 4.1 to 4.4, 6, 7) and checked against the concrete byte vectors,
error expectations and round-trip properties fixed by the test file.

Modelling conventions:
* bytes are `Nat` values (the encoder only ever emits values below 256);
  byte streams are `List Nat`;
* Go's runtime-reflected value shapes become the tagged variant `Value`
  (exactly the "Value description" of spec section 3): fixed-width signed and
  unsigned integers, IEEE-754 floats carried by their bit pattern (the code
  transmits floats by reinterpreting the bit pattern as an unsigned integer
  of matching width, so the bit pattern is the faithful representation),
  complex numbers as two float bit patterns (real part first), fixed arrays,
  variable-length sequences (slices), composite records with named or blank
  fields, one-level pointers, and unsupported leaves (native word-width
  `int`, `uint`, `uintptr`, carried with their type name);
* `Option` models Go's `nil` interface / `nil` sink / `nil` source;
  `Except Err` models the error returns.
-/

namespace binary

/-- Modelled from the spec: the error taxonomy of section 7 for the missing
implementation.  `unsupportedType` carries the offending type's name. -/
inductive Err where
  | invalidArgument
  | unsupportedType (name : String)
  | ioError
deriving DecidableEq

/-- Modelled from the spec: the two byte-order singletons `BigEndian` and
`LittleEndian` of the missing `ByteOrder` implementation (spec sections 3
and 4.1). -/
inductive ByteOrder where
  | BigEndian
  | LittleEndian
deriving DecidableEq

/-- Little-endian byte decomposition: the `w` bytes of `v`, least significant
first. -/
def leBytes : Nat → Nat → List Nat
  | 0, _ => []
  | w + 1, v => v % 256 :: leBytes w (v / 256)

/-- Big-endian byte decomposition: the `w` bytes of `v`, most significant
first. -/
def beBytes (w v : Nat) : List Nat := (leBytes w v).reverse

/-- The `w`-byte representation of `v` in byte order `o`. -/
def orderBytes : ByteOrder → Nat → Nat → List Nat
  | .BigEndian, w, v => beBytes w v
  | .LittleEndian, w, v => leBytes w v

/-- Recombine a little-endian byte list into the integer it represents. -/
def leVal : List Nat → Nat
  | [] => 0
  | b :: bs => b + 256 * leVal bs

/-- Recombine a byte list into the integer it represents in byte order `o`. -/
def orderVal : ByteOrder → List Nat → Nat
  | .BigEndian, bs => leVal bs.reverse
  | .LittleEndian, bs => leVal bs

/-- Modelled from the spec: `PutUint16` of the missing `ByteOrder`
implementation (spec section 4.1) writes the 16-bit value into the first
2 bytes of the buffer in the order's endianness, leaving the rest of the
buffer unchanged. -/
def PutUint16 (o : ByteOrder) (b : List Nat) (v : Nat) : List Nat :=
  orderBytes o 2 v ++ b.drop 2

/-- Modelled from the spec: `PutUint32` of the missing `ByteOrder`
implementation (spec section 4.1). -/
def PutUint32 (o : ByteOrder) (b : List Nat) (v : Nat) : List Nat :=
  orderBytes o 4 v ++ b.drop 4

/-- Modelled from the spec: `PutUint64` of the missing `ByteOrder`
implementation (spec section 4.1). -/
def PutUint64 (o : ByteOrder) (b : List Nat) (v : Nat) : List Nat :=
  orderBytes o 8 v ++ b.drop 8

/-- Modelled from the spec: `Uint16` of the missing `ByteOrder`
implementation (spec section 4.1), the inverse of `PutUint16`: recombines
the first 2 bytes of the buffer. -/
def Uint16 (o : ByteOrder) (b : List Nat) : Nat := orderVal o (b.take 2)

/-- Modelled from the spec: `Uint32` of the missing `ByteOrder`
implementation (spec section 4.1). -/
def Uint32 (o : ByteOrder) (b : List Nat) : Nat := orderVal o (b.take 4)

/-- Modelled from the spec: `Uint64` of the missing `ByteOrder`
implementation (spec section 4.1). -/
def Uint64 (o : ByteOrder) (b : List Nat) : Nat := orderVal o (b.take 8)

/-- Widths of the supported fixed-width integer kinds (8/16/32/64 bit). -/
inductive IW where
  | w8
  | w16
  | w32
  | w64
deriving DecidableEq

/-- Byte width of an integer kind. -/
def IW.bytes : IW → Nat
  | .w8 => 1
  | .w16 => 2
  | .w32 => 4
  | .w64 => 8

/-- Widths of the supported floating-point kinds (32/64 bit). -/
inductive FW where
  | f32
  | f64
deriving DecidableEq

/-- Byte width of a floating-point kind. -/
def FW.bytes : FW → Nat
  | .f32 => 4
  | .f64 => 8

mutual
/-- Modelled from the spec: the "Value description" of spec section 3, the
tagged-variant counterpart of the runtime-reflected value shapes the missing
implementation walks.  Signed integers carry their mathematical value, floats
and complex components carry their IEEE-754 bit pattern (the wire form is
that bit pattern as an unsigned integer, real part first for complex), blank
record fields carry only their declared byte width (they have no addressable
backing storage), `ptr` is a one-level reference, and `unsupported` is a
leaf of platform-defined width carrying its type name (`int`, `uint`,
`uintptr`). -/
inductive Value where
  | int (w : IW) (v : Int)
  | uint (w : IW) (v : Nat)
  | float (w : FW) (bits : Nat)
  | cplx (w : FW) (re im : Nat)
  | array (es : List Value)
  | slice (es : List Value)
  | strct (fs : List Field)
  | ptr (v : Value)
  | unsupported (name : String)

/-- A record field: named (addressable, carrying a value) or blank
(unaddressable, carrying only its declared byte width). -/
inductive Field where
  | named (v : Value)
  | blank (width : Nat)
end

mutual
/-- Well-formedness of a value: every scalar is within its declared width's
range, and no unsupported or pointer leaf occurs.  These are exactly the
values the encoder accepts and reproduces. -/
def Value.wf : Value → Bool
  | .int w v =>
      decide (-(2 : Int) ^ (8 * w.bytes - 1) ≤ v) &&
      decide (v < (2 : Int) ^ (8 * w.bytes - 1))
  | .uint w v => decide (v < 2 ^ (8 * w.bytes))
  | .float w bits => decide (bits < 2 ^ (8 * w.bytes))
  | .cplx w re im => decide (re < 2 ^ (8 * w.bytes)) && decide (im < 2 ^ (8 * w.bytes))
  | .array es => wfList es
  | .slice es => wfList es
  | .strct fs => wfFields fs
  | .ptr _ => false
  | .unsupported _ => false

/-- Well-formedness of a list of element values. -/
def wfList : List Value → Bool
  | [] => true
  | v :: vs => v.wf && wfList vs

/-- Well-formedness of a list of record fields. -/
def wfFields : List Field → Bool
  | [] => true
  | f :: fs => f.wf && wfFields fs

/-- Well-formedness of one record field.  A blank field has no stored value,
so it is always well formed. -/
def Field.wf : Field → Bool
  | .named v => v.wf
  | .blank _ => true
end

mutual
/-- Two values have the same shape when they agree on constructor, widths,
element counts and blank-field widths everywhere.  A decode target must have
the shape of the encoded value. -/
def sameShape : Value → Value → Bool
  | .int w _, t =>
    match t with
    | .int w2 _ => decide (w = w2)
    | _ => false
  | .uint w _, t =>
    match t with
    | .uint w2 _ => decide (w = w2)
    | _ => false
  | .float w _, t =>
    match t with
    | .float w2 _ => decide (w = w2)
    | _ => false
  | .cplx w _ _, t =>
    match t with
    | .cplx w2 _ _ => decide (w = w2)
    | _ => false
  | .array ts, t =>
    match t with
    | .array vs => sameShapeList ts vs
    | _ => false
  | .slice ts, t =>
    match t with
    | .slice vs => sameShapeList ts vs
    | _ => false
  | .strct ts, t =>
    match t with
    | .strct vs => sameShapeFields ts vs
    | _ => false
  | .ptr t1, t =>
    match t with
    | .ptr v1 => sameShape t1 v1
    | _ => false
  | .unsupported a, t =>
    match t with
    | .unsupported b => decide (a = b)
    | _ => false
termination_by structural v _ => v

/-- Elementwise shape agreement of two element lists (same length). -/
def sameShapeList : List Value → List Value → Bool
  | [], vs =>
    match vs with
    | [] => true
    | _ :: _ => false
  | t :: ts, vs =>
    match vs with
    | [] => false
    | v :: vs2 => sameShape t v && sameShapeList ts vs2
termination_by structural ts _ => ts

/-- Fieldwise shape agreement of two field lists (same length). -/
def sameShapeFields : List Field → List Field → Bool
  | [], gs =>
    match gs with
    | [] => true
    | _ :: _ => false
  | f :: fs, gs =>
    match gs with
    | [] => false
    | g :: gs2 => sameShapeField f g && sameShapeFields fs gs2
termination_by structural fs _ => fs

/-- Shape agreement of two record fields: named matches named with the same
value shape, blank matches blank of the same declared width. -/
def sameShapeField : Field → Field → Bool
  | .named t, g =>
    match g with
    | .named v => sameShape t v
    | _ => false
  | .blank w, g =>
    match g with
    | .blank w2 => decide (w = w2)
    | _ => false
termination_by structural f _ => f
end

mutual
/-- Modelled from the spec: the recursive encoder walk of the missing
implementation (spec section 4.3).  Scalars are converted through the byte
order (floats and complex components by their bit pattern, complex real part
first), arrays, slices and record fields are encoded back to back in order
with no separators or length prefix, and an unsupported leaf aborts with
`unsupportedType` naming the leaf's type.  A pointer below the top level is
not supported (the dereference is one level deep only). -/
def encodeValue (o : ByteOrder) : Value → Except Err (List Nat)
  | .int w v => .ok (orderBytes o w.bytes (v % (2 : Int) ^ (8 * w.bytes)).toNat)
  | .uint w v => .ok (orderBytes o w.bytes v)
  | .float w bits => .ok (orderBytes o w.bytes bits)
  | .cplx w re im => .ok (orderBytes o w.bytes re ++ orderBytes o w.bytes im)
  | .array es => encodeList o es
  | .slice es => encodeList o es
  | .strct fs => encodeFields o fs
  | .ptr _ => .error (.unsupportedType "ptr")
  | .unsupported n => .error (.unsupportedType n)

/-- Encode the elements of an array or slice in index order, back to back. -/
def encodeList (o : ByteOrder) : List Value → Except Err (List Nat)
  | [] => .ok []
  | v :: vs =>
    match encodeValue o v with
    | .error e => .error e
    | .ok b =>
      match encodeList o vs with
      | .error e => .error e
      | .ok bs => .ok (b ++ bs)

/-- Encode the fields of a record in declaration order. -/
def encodeFields (o : ByteOrder) : List Field → Except Err (List Nat)
  | [] => .ok []
  | f :: fs =>
    match encodeField o f with
    | .error e => .error e
    | .ok b =>
      match encodeFields o fs with
      | .error e => .error e
      | .ok bs => .ok (b ++ bs)

/-- Encode one record field.  A blank field emits its full declared byte
width as zero-filled padding without reading any field value. -/
def encodeField (o : ByteOrder) : Field → Except Err (List Nat)
  | .named v => encodeValue o v
  | .blank w => .ok (List.replicate w 0)
end

mutual
/-- Modelled from the spec: the size walk of the missing implementation
(`dataSize`, spec section 4.2): the exact encoded byte count, or
`unsupportedType` naming the first leaf of platform-defined width. -/
def dataSize : Value → Except Err Nat
  | .int w _ => .ok w.bytes
  | .uint w _ => .ok w.bytes
  | .float w _ => .ok w.bytes
  | .cplx w _ _ => .ok (2 * w.bytes)
  | .array es => sizeList es
  | .slice es => sizeList es
  | .strct fs => sizeFields fs
  | .ptr _ => .error (.unsupportedType "ptr")
  | .unsupported n => .error (.unsupportedType n)

/-- Sum of the element sizes of an array or slice. -/
def sizeList : List Value → Except Err Nat
  | [] => .ok 0
  | v :: vs =>
    match dataSize v with
    | .error e => .error e
    | .ok a =>
      match sizeList vs with
      | .error e => .error e
      | .ok b => .ok (a + b)

/-- Sum of the field sizes of a record, blank fields included. -/
def sizeFields : List Field → Except Err Nat
  | [] => .ok 0
  | f :: fs =>
    match sizeField f with
    | .error e => .error e
    | .ok a =>
      match sizeFields fs with
      | .error e => .error e
      | .ok b => .ok (a + b)

/-- Size of one record field; a blank field contributes its declared width. -/
def sizeField : Field → Except Err Nat
  | .named v => dataSize v
  | .blank w => .ok w
end

/-- Take `k` bytes from the front of the source; fewer bytes available than
required is a short read, reported as a distinct I/O error. -/
def readBytes (k : Nat) (src : List Nat) : Except Err (List Nat × List Nat) :=
  if k ≤ src.length then .ok (src.take k, src.drop k) else .error .ioError

/-- Reinterpret a `w`-byte unsigned integer as a signed one (two's
complement). -/
def decodeSigned (w : Nat) (n : Nat) : Int :=
  if n < 2 ^ (8 * w - 1) then (n : Int) else (n : Int) - 2 ^ (8 * w)

mutual
/-- Modelled from the spec: the recursive decoder walk of the missing
implementation (spec section 4.4), directed by the target value's shape.
Scalars read their fixed number of raw bytes and convert; arrays and slices
read elements in index order into pre-existing storage (a slice's element
count is taken from the target's current length); records read fields in
order; a blank field consumes and discards exactly its declared width,
storing nothing.  Short reads are I/O errors. -/
def decodeValue (o : ByteOrder) : Value → List Nat → Except Err (Value × List Nat)
  | .int w _, src =>
    match readBytes w.bytes src with
    | .error e => .error e
    | .ok (bs, rest) => .ok (.int w (decodeSigned w.bytes (orderVal o bs)), rest)
  | .uint w _, src =>
    match readBytes w.bytes src with
    | .error e => .error e
    | .ok (bs, rest) => .ok (.uint w (orderVal o bs), rest)
  | .float w _, src =>
    match readBytes w.bytes src with
    | .error e => .error e
    | .ok (bs, rest) => .ok (.float w (orderVal o bs), rest)
  | .cplx w _ _, src =>
    match readBytes w.bytes src with
    | .error e => .error e
    | .ok (bs1, rest1) =>
      match readBytes w.bytes rest1 with
      | .error e => .error e
      | .ok (bs2, rest2) => .ok (.cplx w (orderVal o bs1) (orderVal o bs2), rest2)
  | .array ts, src =>
    match decodeList o ts src with
    | .error e => .error e
    | .ok (es, rest) => .ok (.array es, rest)
  | .slice ts, src =>
    match decodeList o ts src with
    | .error e => .error e
    | .ok (es, rest) => .ok (.slice es, rest)
  | .strct ts, src =>
    match decodeFields o ts src with
    | .error e => .error e
    | .ok (fs, rest) => .ok (.strct fs, rest)
  | .ptr _, _ => .error (.unsupportedType "ptr")
  | .unsupported n, _ => .error (.unsupportedType n)

/-- Decode array or slice elements in index order; the element count is the
target's current element count. -/
def decodeList (o : ByteOrder) : List Value → List Nat → Except Err (List Value × List Nat)
  | [], src => .ok ([], src)
  | t :: ts, src =>
    match decodeValue o t src with
    | .error e => .error e
    | .ok (v, rest) =>
      match decodeList o ts rest with
      | .error e => .error e
      | .ok (vs, rest2) => .ok (v :: vs, rest2)

/-- Decode record fields in declaration order. -/
def decodeFields (o : ByteOrder) : List Field → List Nat → Except Err (List Field × List Nat)
  | [], src => .ok ([], src)
  | f :: fs, src =>
    match decodeField o f src with
    | .error e => .error e
    | .ok (g, rest) =>
      match decodeFields o fs rest with
      | .error e => .error e
      | .ok (gs, rest2) => .ok (g :: gs, rest2)

/-- Decode one record field.  A blank field consumes and discards exactly
its declared width in bytes, without requiring them to be zero and without
storing anything. -/
def decodeField (o : ByteOrder) : Field → List Nat → Except Err (Field × List Nat)
  | .named t, src =>
    match decodeValue o t src with
    | .error e => .error e
    | .ok (v, rest) => .ok (.named v, rest)
  | .blank w, src =>
    match readBytes w src with
    | .error e => .error e
    | .ok (_, rest) => .ok (.blank w, rest)
end

/-- One-level pointer dereference, as performed by the entry points on their
argument (spec section 4.3: depth 1 only). -/
def indirect : Value → Value
  | .ptr v => v
  | v => v

/-- Whether a value is a pointer. -/
def Value.isPtr : Value → Bool
  | .ptr _ => true
  | _ => false

/-- Modelled from the spec: the public `Write(sink, order, value)` entry
point of the missing implementation (spec sections 4.3, 6, 7).  The
no-value sentinel is rejected with `InvalidArgument` before any I/O, even
when the sink itself is absent; otherwise the value is dereferenced one
level and encoded, and the bytes are appended to the sink.  The result is
the sink's contents after the call. -/
def Write (sink : Option (List Nat)) (o : ByteOrder) (data : Option Value) :
    Except Err (List Nat) :=
  match data with
  | none => .error .invalidArgument
  | some d =>
    match encodeValue o (indirect d) with
    | .error e => .error e
    | .ok bs =>
      match sink with
      | none => .error .ioError
      | some s => .ok (s ++ bs)

/-- Decode from the source into the given target shape and return the
decoded value; an absent source is an I/O failure. -/
def readInto (source : Option (List Nat)) (o : ByteOrder) (t : Value) :
    Except Err Value :=
  match source with
  | none => .error .ioError
  | some src =>
    match decodeValue o t src with
    | .error e => .error e
    | .ok (v, _) => .ok v

/-- Modelled from the spec: the public `Read(source, order, target)` entry
point of the missing implementation (spec sections 4.4, 6, 7).  The
no-value sentinel, and any target that is neither a writable reference nor
a slice, is rejected with `InvalidArgument` before any I/O, even when the
source itself is absent.  A pointer target is dereferenced one level; a
bare slice is accepted directly and filled in place. -/
def Read (source : Option (List Nat)) (o : ByteOrder) (target : Option Value) :
    Except Err Value :=
  match target with
  | none => .error .invalidArgument
  | some (.ptr t) => readInto source o t
  | some (.slice es) => readInto source o (.slice es)
  | some _ => .error .invalidArgument

/-- Modelled from the spec: the public `Size(value)` entry point of the
missing implementation (spec sections 4.2 and 6): the exact encoded byte
count, computed without I/O. -/
def Size (data : Option Value) : Except Err Nat :=
  match data with
  | none => .error .invalidArgument
  | some d => dataSize (indirect d)

/-- The test file's value `s` of type `Struct`: one of each supported scalar
kind (the byte-pattern values 0x01, 0x0203, 0x04050607, 0x08090a0b0c0d0e0f,
0x10, 0x1112, 0x13141516, 0x1718191a1b1c1d1e, the float and complex bit
patterns, and the 4-byte array 0x43 0x44 0x45 0x46). -/
def sVal : Value :=
  .strct [
    .named (.int .w8 0x01),
    .named (.int .w16 0x0203),
    .named (.int .w32 0x04050607),
    .named (.int .w64 0x08090a0b0c0d0e0f),
    .named (.uint .w8 0x10),
    .named (.uint .w16 0x1112),
    .named (.uint .w32 0x13141516),
    .named (.uint .w64 0x1718191a1b1c1d1e),
    .named (.float .f32 0x1f202122),
    .named (.float .f64 0x232425262728292a),
    .named (.cplx .f32 0x2b2c2d2e 0x2f303132),
    .named (.cplx .f64 0x333435363738393a 0x3b3c3d3e3f404142),
    .named (.array [.uint .w8 0x43, .uint .w8 0x44, .uint .w8 0x45, .uint .w8 0x46])]

/-- A zero-valued record of the same shape as `sVal`, the decode target of
the test's read direction. -/
def sZero : Value :=
  .strct [
    .named (.int .w8 0),
    .named (.int .w16 0),
    .named (.int .w32 0),
    .named (.int .w64 0),
    .named (.uint .w8 0),
    .named (.uint .w16 0),
    .named (.uint .w32 0),
    .named (.uint .w64 0),
    .named (.float .f32 0),
    .named (.float .f64 0),
    .named (.cplx .f32 0 0),
    .named (.cplx .f64 0 0),
    .named (.array [.uint .w8 0, .uint .w8 0, .uint .w8 0, .uint .w8 0])]

/-- The literal byte sequence the test expects for `sVal` under big-endian
(the test file's `big`). -/
def bigBytes : List Nat :=
  [1,
   2, 3,
   4, 5, 6, 7,
   8, 9, 10, 11, 12, 13, 14, 15,
   16,
   17, 18,
   19, 20, 21, 22,
   23, 24, 25, 26, 27, 28, 29, 30,
   31, 32, 33, 34,
   35, 36, 37, 38, 39, 40, 41, 42,
   43, 44, 45, 46, 47, 48, 49, 50,
   51, 52, 53, 54, 55, 56, 57, 58, 59, 60, 61, 62, 63, 64, 65, 66,
   67, 68, 69, 70]

/-- The literal byte sequence the test expects under little-endian: every
multi-byte group of `bigBytes` byte-reversed, single bytes unchanged (the
test file's `little`). -/
def littleBytes : List Nat :=
  [1,
   3, 2,
   7, 6, 5, 4,
   15, 14, 13, 12, 11, 10, 9, 8,
   16,
   18, 17,
   22, 21, 20, 19,
   30, 29, 28, 27, 26, 25, 24, 23,
   34, 33, 32, 31,
   42, 41, 40, 39, 38, 37, 36, 35,
   46, 45, 44, 43, 50, 49, 48, 47,
   58, 57, 56, 55, 54, 53, 52, 51, 66, 65, 64, 63, 62, 61, 60, 59,
   67, 68, 69, 70]

/-- The test file's record `T`: native word-width fields of types `int`,
`uint`, `uintptr`, and a fixed `[4]int` array, all of platform-defined
width. -/
def Tval : Value :=
  .strct [.named (.unsupported "int"), .named (.unsupported "uint"),
    .named (.unsupported "uintptr"),
    .named (.array (List.replicate 4 (.unsupported "int")))]

/-- A composite with interleaved blank fields of declared widths 4, 16, 1,
7 and 32 bytes, as named by the spec's blank-field property, with named
fields between them. -/
def blankVal : Value :=
  .strct [.named (.uint .w32 1234567890), .blank 4,
    .named (.float .f64 0x4005bf0a8b145769), .blank 16,
    .named (.uint .w8 42), .blank 1, .blank 7, .blank 32]

/-- The zero-valued decode target of the same shape as `blankVal`. -/
def blankZero : Value :=
  .strct [.named (.uint .w32 0), .blank 4,
    .named (.float .f64 0), .blank 16,
    .named (.uint .w8 0), .blank 1, .blank 7, .blank 32]

/-- A variable-length sequence of length 35 of signed integers of width `w`
holding 0, 1, ..., 34 (the test's odd-slice data). -/
def oddSliceI (w : IW) : Value :=
  .slice ((List.range 35).map (fun i => Value.int w (Int.ofNat i)))

/-- A zeroed length-35 signed sequence of width `w`, used as decode
target. -/
def oddSliceIZ (w : IW) : Value :=
  .slice (List.replicate 35 (Value.int w 0))

/-- A variable-length sequence of length 35 of unsigned integers of width
`w` holding 0, 1, ..., 34. -/
def oddSliceU (w : IW) : Value :=
  .slice ((List.range 35).map (fun i => Value.uint w i))

/-- A zeroed length-35 unsigned sequence of width `w`, used as decode
target. -/
def oddSliceUZ (w : IW) : Value :=
  .slice (List.replicate 35 (Value.uint w 0))

theorem leBytes_length (w : Nat) : ∀ v, (leBytes w v).length = w := by
  induction w with
  | zero => intro v; rfl
  | succ n ih => intro v; simp [leBytes, ih]

theorem orderBytes_length (o : ByteOrder) (w v : Nat) :
    (orderBytes o w v).length = w := by
  cases o <;> simp [orderBytes, beBytes, leBytes_length]

theorem leVal_leBytes (w : Nat) : ∀ v, leVal (leBytes w v) = v % 2 ^ (8 * w) := by
  induction w with
  | zero => intro v; simp [leBytes, leVal, Nat.mod_one]
  | succ n ih =>
    intro v
    have hpow : (2 : Nat) ^ (8 * (n + 1)) = 256 * 2 ^ (8 * n) := by ring
    rw [hpow, Nat.mod_mul]
    simp [leBytes, leVal, ih]

theorem orderVal_orderBytes (o : ByteOrder) (w v : Nat) :
    orderVal o (orderBytes o w v) = v % 2 ^ (8 * w) := by
  cases o <;> simp [orderVal, orderBytes, beBytes, leVal_leBytes]

theorem orderVal_orderBytes_of_lt (o : ByteOrder) (w v : Nat)
    (h : v < 2 ^ (8 * w)) : orderVal o (orderBytes o w v) = v := by
  rw [orderVal_orderBytes, Nat.mod_eq_of_lt h]

theorem readBytes_exact (k : Nat) (bs rest : List Nat) (h : bs.length = k) :
    readBytes k (bs ++ rest) = .ok (bs, rest) := by
  subst h
  rw [readBytes, if_pos (by simp)]
  rw [List.take_left, List.drop_left]

theorem readBytes_ok {k : Nat} {src bs rest : List Nat}
    (h : readBytes k src = .ok (bs, rest)) : src = bs ++ rest ∧ bs.length = k := by
  rw [readBytes] at h
  split_ifs at h with hk
  · simp only [Except.ok.injEq, Prod.mk.injEq] at h
    obtain ⟨h1, h2⟩ := h
    subst h1; subst h2
    exact ⟨(List.take_append_drop k src).symm,
      by simp [List.length_take, Nat.min_eq_left hk]⟩

theorem emod_toNat_lt (w : IW) (x : Int) :
    ((x % (2 : Int) ^ (8 * w.bytes)).toNat) < 2 ^ (8 * w.bytes) := by
  cases w <;> simp only [IW.bytes] <;> norm_num <;> omega

theorem decodeSigned_emod (w : IW) (x : Int)
    (h1 : -(2 : Int) ^ (8 * w.bytes - 1) ≤ x)
    (h2 : x < (2 : Int) ^ (8 * w.bytes - 1)) :
    decodeSigned w.bytes ((x % (2 : Int) ^ (8 * w.bytes)).toNat) = x := by
  cases w <;> simp only [IW.bytes, decodeSigned] at h1 h2 ⊢ <;>
    norm_num at h1 h2 ⊢ <;> split_ifs <;> omega

theorem decode_int (o : ByteOrder) (w : IW) (x y : Int) (rest : List Nat)
    (h1 : -(2 : Int) ^ (8 * w.bytes - 1) ≤ x)
    (h2 : x < (2 : Int) ^ (8 * w.bytes - 1)) :
    decodeValue o (.int w y)
      (orderBytes o w.bytes ((x % (2 : Int) ^ (8 * w.bytes)).toNat) ++ rest) =
      .ok (.int w x, rest) := by
  simp only [decodeValue,
    readBytes_exact w.bytes _ rest (orderBytes_length o w.bytes _),
    orderVal_orderBytes_of_lt o w.bytes _ (emod_toNat_lt w x),
    decodeSigned_emod w x h1 h2]

theorem decode_uint (o : ByteOrder) (w : IW) (x y : Nat) (rest : List Nat)
    (h : x < 2 ^ (8 * w.bytes)) :
    decodeValue o (.uint w y) (orderBytes o w.bytes x ++ rest) =
      .ok (.uint w x, rest) := by
  simp only [decodeValue,
    readBytes_exact w.bytes _ rest (orderBytes_length o w.bytes _),
    orderVal_orderBytes_of_lt o w.bytes _ h]

theorem decode_float (o : ByteOrder) (w : FW) (x y : Nat) (rest : List Nat)
    (h : x < 2 ^ (8 * w.bytes)) :
    decodeValue o (.float w y) (orderBytes o w.bytes x ++ rest) =
      .ok (.float w x, rest) := by
  simp only [decodeValue,
    readBytes_exact w.bytes _ rest (orderBytes_length o w.bytes _),
    orderVal_orderBytes_of_lt o w.bytes _ h]

theorem decode_cplx (o : ByteOrder) (w : FW) (re im re2 im2 : Nat) (rest : List Nat)
    (hre : re < 2 ^ (8 * w.bytes)) (him : im < 2 ^ (8 * w.bytes)) :
    decodeValue o (.cplx w re2 im2)
      ((orderBytes o w.bytes re ++ orderBytes o w.bytes im) ++ rest) =
      .ok (.cplx w re im, rest) := by
  rw [List.append_assoc]
  simp only [decodeValue,
    readBytes_exact w.bytes _ _ (orderBytes_length o w.bytes _),
    orderVal_orderBytes_of_lt o w.bytes _ hre,
    orderVal_orderBytes_of_lt o w.bytes _ him]



theorem wf_int {w : IW} {v : Int} (h : (Value.int w v).wf = true) :
    -(2 : Int) ^ (8 * w.bytes - 1) ≤ v ∧ v < (2 : Int) ^ (8 * w.bytes - 1) := by
  simpa [Value.wf] using h

mutual
theorem rt_value (o : ByteOrder) (v t : Value) (rest : List Nat)
    (hw : v.wf = true) (hs : sameShape t v = true) :
    ∃ bs, encodeValue o v = .ok bs ∧ decodeValue o t (bs ++ rest) = .ok (v, rest) := by
  cases v with
  | int w x =>
    cases t
    case int w2 y =>
      have hww : w2 = w := by simpa [sameShape] using hs
      rw [hww]
      obtain ⟨h1, h2⟩ := wf_int hw
      exact ⟨_, rfl, decode_int o w x y rest h1 h2⟩
    all_goals exact absurd hs Bool.false_ne_true
  | uint w x =>
    cases t
    case uint w2 y =>
      have hww : w2 = w := by simpa [sameShape] using hs
      rw [hww]
      replace hw : x < 2 ^ (8 * w.bytes) := by simpa [Value.wf] using hw
      exact ⟨_, rfl, decode_uint o w x y rest hw⟩
    all_goals exact absurd hs Bool.false_ne_true
  | float w x =>
    cases t
    case float w2 y =>
      have hww : w2 = w := by simpa [sameShape] using hs
      rw [hww]
      replace hw : x < 2 ^ (8 * w.bytes) := by simpa [Value.wf] using hw
      exact ⟨_, rfl, decode_float o w x y rest hw⟩
    all_goals exact absurd hs Bool.false_ne_true
  | cplx w re im =>
    cases t
    case cplx w2 re2 im2 =>
      have hww : w2 = w := by simpa [sameShape] using hs
      rw [hww]
      replace hw : re < 2 ^ (8 * w.bytes) ∧ im < 2 ^ (8 * w.bytes) := by
        simpa [Value.wf] using hw
      exact ⟨_, rfl, decode_cplx o w re im re2 im2 rest hw.1 hw.2⟩
    all_goals exact absurd hs Bool.false_ne_true
  | array es =>
    cases t
    case array ts =>
      obtain ⟨bs, h1, h2⟩ := rt_list o es ts rest hw hs
      exact ⟨bs, h1, by simp only [decodeValue, h2]⟩
    all_goals exact absurd hs Bool.false_ne_true
  | slice es =>
    cases t
    case slice ts =>
      obtain ⟨bs, h1, h2⟩ := rt_list o es ts rest hw hs
      exact ⟨bs, h1, by simp only [decodeValue, h2]⟩
    all_goals exact absurd hs Bool.false_ne_true
  | strct fs =>
    cases t
    case strct ts =>
      obtain ⟨bs, h1, h2⟩ := rt_fields o fs ts rest hw hs
      exact ⟨bs, h1, by simp only [decodeValue, h2]⟩
    all_goals exact absurd hs Bool.false_ne_true
  | ptr v2 => exact absurd hw Bool.false_ne_true
  | unsupported n => exact absurd hw Bool.false_ne_true

theorem rt_list (o : ByteOrder) (vs ts : List Value) (rest : List Nat)
    (hw : wfList vs = true) (hs : sameShapeList ts vs = true) :
    ∃ bs, encodeList o vs = .ok bs ∧ decodeList o ts (bs ++ rest) = .ok (vs, rest) := by
  cases vs with
  | nil =>
    cases ts with
    | nil => exact ⟨[], rfl, rfl⟩
    | cons t ts2 => exact absurd hs Bool.false_ne_true
  | cons v vs2 =>
    cases ts with
    | nil => exact absurd hs Bool.false_ne_true
    | cons t ts2 =>
      rw [show wfList (v :: vs2) = (v.wf && wfList vs2) from rfl, Bool.and_eq_true] at hw
      rw [show sameShapeList (t :: ts2) (v :: vs2) = (sameShape t v && sameShapeList ts2 vs2) from rfl,
        Bool.and_eq_true] at hs
      obtain ⟨bs2, h3, h4⟩ := rt_list o vs2 ts2 rest hw.2 hs.2
      obtain ⟨b, h1, h2⟩ := rt_value o v t (bs2 ++ rest) hw.1 hs.1
      refine ⟨b ++ bs2, ?_, ?_⟩
      · simp only [encodeList, h1, h3]
      · rw [List.append_assoc]
        simp only [decodeList, h2, h4]

theorem rt_fields (o : ByteOrder) (fs gs : List Field) (rest : List Nat)
    (hw : wfFields fs = true) (hs : sameShapeFields gs fs = true) :
    ∃ bs, encodeFields o fs = .ok bs ∧ decodeFields o gs (bs ++ rest) = .ok (fs, rest) := by
  cases fs with
  | nil =>
    cases gs with
    | nil => exact ⟨[], rfl, rfl⟩
    | cons g gs2 => exact absurd hs Bool.false_ne_true
  | cons f fs2 =>
    cases gs with
    | nil => exact absurd hs Bool.false_ne_true
    | cons g gs2 =>
      rw [show wfFields (f :: fs2) = (f.wf && wfFields fs2) from rfl, Bool.and_eq_true] at hw
      rw [show sameShapeFields (g :: gs2) (f :: fs2) = (sameShapeField g f && sameShapeFields gs2 fs2) from rfl,
        Bool.and_eq_true] at hs
      obtain ⟨bs2, h3, h4⟩ := rt_fields o fs2 gs2 rest hw.2 hs.2
      obtain ⟨b, h1, h2⟩ := rt_field o f g (bs2 ++ rest) hw.1 hs.1
      refine ⟨b ++ bs2, ?_, ?_⟩
      · simp only [encodeFields, h1, h3]
      · rw [List.append_assoc]
        simp only [decodeFields, h2, h4]

theorem rt_field (o : ByteOrder) (f g : Field) (rest : List Nat)
    (hw : f.wf = true) (hs : sameShapeField g f = true) :
    ∃ bs, encodeField o f = .ok bs ∧ decodeField o g (bs ++ rest) = .ok (f, rest) := by
  cases f with
  | named v =>
    cases g with
    | named t =>
      obtain ⟨b, h1, h2⟩ := rt_value o v t rest hw hs
      exact ⟨b, h1, by simp only [decodeField, h2]⟩
    | blank w => exact absurd hs Bool.false_ne_true
  | blank w =>
    cases g with
    | named t => exact absurd hs Bool.false_ne_true
    | blank w2 =>
      have hww : w2 = w := by simpa [sameShapeField] using hs
      rw [hww]
      exact ⟨List.replicate w 0, rfl, by
        simp only [decodeField, readBytes_exact w _ rest (List.length_replicate w 0)]⟩
end

mutual
theorem sameShape_refl (v : Value) : sameShape v v = true := by
  cases v with
  | int w x => simp [sameShape]
  | uint w x => simp [sameShape]
  | float w x => simp [sameShape]
  | cplx w re im => simp [sameShape]
  | array es => exact sameShapeList_refl es
  | slice es => exact sameShapeList_refl es
  | strct fs => exact sameShapeFields_refl fs
  | ptr v2 => exact sameShape_refl v2
  | unsupported n => simp [sameShape]

theorem sameShapeList_refl (vs : List Value) : sameShapeList vs vs = true := by
  cases vs with
  | nil => rfl
  | cons v vs2 =>
    rw [show sameShapeList (v :: vs2) (v :: vs2) = (sameShape v v && sameShapeList vs2 vs2) from rfl]
    rw [sameShape_refl v, sameShapeList_refl vs2]
    rfl

theorem sameShapeFields_refl (fs : List Field) : sameShapeFields fs fs = true := by
  cases fs with
  | nil => rfl
  | cons f fs2 =>
    rw [show sameShapeFields (f :: fs2) (f :: fs2) = (sameShapeField f f && sameShapeFields fs2 fs2) from rfl]
    rw [sameShapeField_refl f, sameShapeFields_refl fs2]
    rfl

theorem sameShapeField_refl (f : Field) : sameShapeField f f = true := by
  cases f with
  | named v => exact sameShape_refl v
  | blank w => simp [sameShapeField]
end

theorem sameShapeList_length (vs : List Value) :
    ∀ ts, sameShapeList vs ts = true → vs.length = ts.length := by
  induction vs with
  | nil =>
    intro ts h
    cases ts with
    | nil => rfl
    | cons t ts2 => exact absurd h Bool.false_ne_true
  | cons v vs2 ih =>
    intro ts h
    cases ts with
    | nil => exact absurd h Bool.false_ne_true
    | cons t ts2 =>
      rw [show sameShapeList (v :: vs2) (t :: ts2) = (sameShape v t && sameShapeList vs2 ts2) from rfl,
        Bool.and_eq_true] at h
      simp [ih ts2 h.2]

mutual
theorem enc_size (o : ByteOrder) (v : Value) :
    Except.map List.length (encodeValue o v) = dataSize v := by
  cases v with
  | int w x => simp [encodeValue, dataSize, Except.map, orderBytes_length]
  | uint w x => simp [encodeValue, dataSize, Except.map, orderBytes_length]
  | float w x => simp [encodeValue, dataSize, Except.map, orderBytes_length]
  | cplx w re im =>
    simp [encodeValue, dataSize, Except.map, orderBytes_length, two_mul]
  | array es => exact enc_size_list o es
  | slice es => exact enc_size_list o es
  | strct fs => exact enc_size_fields o fs
  | ptr v2 => rfl
  | unsupported n => rfl

theorem enc_size_list (o : ByteOrder) (vs : List Value) :
    Except.map List.length (encodeList o vs) = sizeList vs := by
  cases vs with
  | nil => rfl
  | cons v vs2 =>
    have h1 := enc_size o v
    have h2 := enc_size_list o vs2
    cases he : encodeValue o v with
    | error e =>
      rw [he] at h1
      simp only [Except.map] at h1
      simp only [encodeList, sizeList, he, ← h1, Except.map]
    | ok b =>
      rw [he] at h1
      simp only [Except.map] at h1
      cases he2 : encodeList o vs2 with
      | error e =>
        rw [he2] at h2
        simp only [Except.map] at h2
        simp only [encodeList, sizeList, he, he2, ← h1, ← h2, Except.map]
      | ok bs =>
        rw [he2] at h2
        simp only [Except.map] at h2
        simp only [encodeList, sizeList, he, he2, ← h1, ← h2, Except.map,
          List.length_append]

theorem enc_size_fields (o : ByteOrder) (fs : List Field) :
    Except.map List.length (encodeFields o fs) = sizeFields fs := by
  cases fs with
  | nil => rfl
  | cons f fs2 =>
    have h1 := enc_size_field o f
    have h2 := enc_size_fields o fs2
    cases he : encodeField o f with
    | error e =>
      rw [he] at h1
      simp only [Except.map] at h1
      simp only [encodeFields, sizeFields, he, ← h1, Except.map]
    | ok b =>
      rw [he] at h1
      simp only [Except.map] at h1
      cases he2 : encodeFields o fs2 with
      | error e =>
        rw [he2] at h2
        simp only [Except.map] at h2
        simp only [encodeFields, sizeFields, he, he2, ← h1, ← h2, Except.map]
      | ok bs =>
        rw [he2] at h2
        simp only [Except.map] at h2
        simp only [encodeFields, sizeFields, he, he2, ← h1, ← h2, Except.map,
          List.length_append]

theorem enc_size_field (o : ByteOrder) (f : Field) :
    Except.map List.length (encodeField o f) = sizeField f := by
  cases f with
  | named v => exact enc_size o v
  | blank w => simp [encodeField, sizeField, Except.map]
end



mutual
theorem dec_consume (o : ByteOrder) (t : Value) (src : List Nat) (v : Value)
    (rest : List Nat) (h : decodeValue o t src = .ok (v, rest)) :
    ∃ c, src = c ++ rest ∧ dataSize t = .ok c.length ∧ sameShape v t = true := by
  cases t with
  | int w y =>
    cases hrb : readBytes w.bytes src with
    | error e => simp [decodeValue, hrb] at h
    | ok p =>
      obtain ⟨bs, rest1⟩ := p
      obtain ⟨hsrc, hlen⟩ := readBytes_ok hrb
      simp only [decodeValue, hrb, Except.ok.injEq, Prod.mk.injEq] at h
      obtain ⟨hv, hr⟩ := h
      subst hv; subst hr
      exact ⟨bs, hsrc, by simp [dataSize, hlen], by simp [sameShape]⟩
  | uint w y =>
    cases hrb : readBytes w.bytes src with
    | error e => simp [decodeValue, hrb] at h
    | ok p =>
      obtain ⟨bs, rest1⟩ := p
      obtain ⟨hsrc, hlen⟩ := readBytes_ok hrb
      simp only [decodeValue, hrb, Except.ok.injEq, Prod.mk.injEq] at h
      obtain ⟨hv, hr⟩ := h
      subst hv; subst hr
      exact ⟨bs, hsrc, by simp [dataSize, hlen], by simp [sameShape]⟩
  | float w y =>
    cases hrb : readBytes w.bytes src with
    | error e => simp [decodeValue, hrb] at h
    | ok p =>
      obtain ⟨bs, rest1⟩ := p
      obtain ⟨hsrc, hlen⟩ := readBytes_ok hrb
      simp only [decodeValue, hrb, Except.ok.injEq, Prod.mk.injEq] at h
      obtain ⟨hv, hr⟩ := h
      subst hv; subst hr
      exact ⟨bs, hsrc, by simp [dataSize, hlen], by simp [sameShape]⟩
  | cplx w re2 im2 =>
    cases hrb : readBytes w.bytes src with
    | error e => simp [decodeValue, hrb] at h
    | ok p =>
      obtain ⟨bs1, rest1⟩ := p
      cases hrb2 : readBytes w.bytes rest1 with
      | error e => simp [decodeValue, hrb, hrb2] at h
      | ok p2 =>
        obtain ⟨bs2, rest2⟩ := p2
        obtain ⟨hsrc1, hlen1⟩ := readBytes_ok hrb
        obtain ⟨hsrc2, hlen2⟩ := readBytes_ok hrb2
        simp only [decodeValue, hrb, hrb2, Except.ok.injEq, Prod.mk.injEq] at h
        obtain ⟨hv, hr⟩ := h
        subst hv; subst hr
        refine ⟨bs1 ++ bs2, ?_, ?_, by simp [sameShape]⟩
        · rw [hsrc1, hsrc2, List.append_assoc]
        · simp [dataSize, hlen1, hlen2, two_mul]
  | array ts =>
    cases hdl : decodeList o ts src with
    | error e => simp [decodeValue, hdl] at h
    | ok p =>
      obtain ⟨es, rest1⟩ := p
      simp only [decodeValue, hdl, Except.ok.injEq, Prod.mk.injEq] at h
      obtain ⟨hv, hr⟩ := h
      subst hv; subst hr
      obtain ⟨c, hc1, hc2, hc3, _⟩ := dec_consume_list o ts src es rest1 hdl
      exact ⟨c, hc1, hc2, hc3⟩
  | slice ts =>
    cases hdl : decodeList o ts src with
    | error e => simp [decodeValue, hdl] at h
    | ok p =>
      obtain ⟨es, rest1⟩ := p
      simp only [decodeValue, hdl, Except.ok.injEq, Prod.mk.injEq] at h
      obtain ⟨hv, hr⟩ := h
      subst hv; subst hr
      obtain ⟨c, hc1, hc2, hc3, _⟩ := dec_consume_list o ts src es rest1 hdl
      exact ⟨c, hc1, hc2, hc3⟩
  | strct ts =>
    cases hdl : decodeFields o ts src with
    | error e => simp [decodeValue, hdl] at h
    | ok p =>
      obtain ⟨gs, rest1⟩ := p
      simp only [decodeValue, hdl, Except.ok.injEq, Prod.mk.injEq] at h
      obtain ⟨hv, hr⟩ := h
      subst hv; subst hr
      obtain ⟨c, hc1, hc2, hc3⟩ := dec_consume_fields o ts src gs rest1 hdl
      exact ⟨c, hc1, hc2, hc3⟩
  | ptr t2 => simp [decodeValue] at h
  | unsupported n => simp [decodeValue] at h

theorem dec_consume_list (o : ByteOrder) (ts : List Value) (src : List Nat)
    (vs : List Value) (rest : List Nat)
    (h : decodeList o ts src = .ok (vs, rest)) :
    ∃ c, src = c ++ rest ∧ sizeList ts = .ok c.length ∧
      sameShapeList vs ts = true ∧ vs.length = ts.length := by
  cases ts with
  | nil =>
    simp only [decodeList, Except.ok.injEq, Prod.mk.injEq] at h
    obtain ⟨hv, hr⟩ := h
    subst hv; subst hr
    exact ⟨[], rfl, rfl, rfl, rfl⟩
  | cons t ts2 =>
    cases hd1 : decodeValue o t src with
    | error e => simp [decodeList, hd1] at h
    | ok p =>
      obtain ⟨v, rest1⟩ := p
      cases hd2 : decodeList o ts2 rest1 with
      | error e => simp [decodeList, hd1, hd2] at h
      | ok p2 =>
        obtain ⟨vs2, rest2⟩ := p2
        simp only [decodeList, hd1, hd2, Except.ok.injEq, Prod.mk.injEq] at h
        obtain ⟨hv, hr⟩ := h
        subst hv; subst hr
        obtain ⟨c1, hc1, hs1, hsh1⟩ := dec_consume o t src v rest1 hd1
        obtain ⟨c2, hc2, hs2, hsh2, hlen⟩ := dec_consume_list o ts2 rest1 vs2 rest2 hd2
        refine ⟨c1 ++ c2, ?_, ?_, ?_, ?_⟩
        · rw [hc1, hc2, List.append_assoc]
        · simp only [sizeList, hs1, hs2, List.length_append]
        · rw [show sameShapeList (v :: vs2) (t :: ts2) = (sameShape v t && sameShapeList vs2 ts2) from rfl,
            hsh1, hsh2]
          rfl
        · simp [hlen]

theorem dec_consume_fields (o : ByteOrder) (gs : List Field) (src : List Nat)
    (fs : List Field) (rest : List Nat)
    (h : decodeFields o gs src = .ok (fs, rest)) :
    ∃ c, src = c ++ rest ∧ sizeFields gs = .ok c.length ∧
      sameShapeFields fs gs = true := by
  cases gs with
  | nil =>
    simp only [decodeFields, Except.ok.injEq, Prod.mk.injEq] at h
    obtain ⟨hv, hr⟩ := h
    subst hv; subst hr
    exact ⟨[], rfl, rfl, rfl⟩
  | cons g gs2 =>
    cases hd1 : decodeField o g src with
    | error e => simp [decodeFields, hd1] at h
    | ok p =>
      obtain ⟨f, rest1⟩ := p
      cases hd2 : decodeFields o gs2 rest1 with
      | error e => simp [decodeFields, hd1, hd2] at h
      | ok p2 =>
        obtain ⟨fs2, rest2⟩ := p2
        simp only [decodeFields, hd1, hd2, Except.ok.injEq, Prod.mk.injEq] at h
        obtain ⟨hv, hr⟩ := h
        subst hv; subst hr
        obtain ⟨c1, hc1, hs1, hsh1⟩ := dec_consume_field o g src f rest1 hd1
        obtain ⟨c2, hc2, hs2, hsh2⟩ := dec_consume_fields o gs2 rest1 fs2 rest2 hd2
        refine ⟨c1 ++ c2, ?_, ?_, ?_⟩
        · rw [hc1, hc2, List.append_assoc]
        · simp only [sizeFields, hs1, hs2, List.length_append]
        · rw [show sameShapeFields (f :: fs2) (g :: gs2) = (sameShapeField f g && sameShapeFields fs2 gs2) from rfl,
            hsh1, hsh2]
          rfl

theorem dec_consume_field (o : ByteOrder) (g : Field) (src : List Nat)
    (f : Field) (rest : List Nat)
    (h : decodeField o g src = .ok (f, rest)) :
    ∃ c, src = c ++ rest ∧ sizeField g = .ok c.length ∧
      sameShapeField f g = true := by
  cases g with
  | named t =>
    cases hd1 : decodeValue o t src with
    | error e => simp [decodeField, hd1] at h
    | ok p =>
      obtain ⟨v, rest1⟩ := p
      simp only [decodeField, hd1, Except.ok.injEq, Prod.mk.injEq] at h
      obtain ⟨hv, hr⟩ := h
      subst hv; subst hr
      obtain ⟨c, hc1, hc2, hc3⟩ := dec_consume o t src v rest1 hd1
      exact ⟨c, hc1, hc2, hc3⟩
  | blank w =>
    cases hrb : readBytes w src with
    | error e => simp [decodeField, hrb] at h
    | ok p =>
      obtain ⟨bs, rest1⟩ := p
      obtain ⟨hsrc, hlen⟩ := readBytes_ok hrb
      simp only [decodeField, hrb, Except.ok.injEq, Prod.mk.injEq] at h
      obtain ⟨hv, hr⟩ := h
      subst hv; subst hr
      exact ⟨bs, hsrc, by simp [sizeField, hlen], by simp [sameShapeField]⟩
end

/-- C1: for every value of a supported composite, fixed-array or
variable-length-sequence type (any well-formed value) and each byte order,
decoding the bytes produced by encoding the value into any target of the
same shape yields the value itself — equality holds on every addressable
field, and blank fields, which carry no stored data, are outside the
comparison by construction. -/
theorem C1_round_trip (o : ByteOrder) (v t : Value) (hw : v.wf = true)
    (hs : sameShape t v = true) :
    ∃ bs, encodeValue o v = .ok bs ∧ decodeValue o t bs = .ok (v, []) := by
  obtain ⟨bs, h1, h2⟩ := rt_value o v t [] hw hs
  rw [List.append_nil] at h2
  exact ⟨bs, h1, h2⟩

/-- C1 witness: sequences of length 35 of every supported signed and
unsigned integer width round-trip element-for-element under big-endian. -/
theorem C1_round_trip_witness :
    (∃ bs, encodeValue .BigEndian (oddSliceI .w8) = .ok bs ∧
      decodeValue .BigEndian (oddSliceIZ .w8) bs = .ok (oddSliceI .w8, [])) ∧
    (∃ bs, encodeValue .BigEndian (oddSliceI .w16) = .ok bs ∧
      decodeValue .BigEndian (oddSliceIZ .w16) bs = .ok (oddSliceI .w16, [])) ∧
    (∃ bs, encodeValue .BigEndian (oddSliceI .w32) = .ok bs ∧
      decodeValue .BigEndian (oddSliceIZ .w32) bs = .ok (oddSliceI .w32, [])) ∧
    (∃ bs, encodeValue .BigEndian (oddSliceI .w64) = .ok bs ∧
      decodeValue .BigEndian (oddSliceIZ .w64) bs = .ok (oddSliceI .w64, [])) ∧
    (∃ bs, encodeValue .BigEndian (oddSliceU .w8) = .ok bs ∧
      decodeValue .BigEndian (oddSliceUZ .w8) bs = .ok (oddSliceU .w8, [])) ∧
    (∃ bs, encodeValue .BigEndian (oddSliceU .w16) = .ok bs ∧
      decodeValue .BigEndian (oddSliceUZ .w16) bs = .ok (oddSliceU .w16, [])) ∧
    (∃ bs, encodeValue .BigEndian (oddSliceU .w32) = .ok bs ∧
      decodeValue .BigEndian (oddSliceUZ .w32) bs = .ok (oddSliceU .w32, [])) ∧
    (∃ bs, encodeValue .BigEndian (oddSliceU .w64) = .ok bs ∧
      decodeValue .BigEndian (oddSliceUZ .w64) bs = .ok (oddSliceU .w64, [])) :=
  ⟨C1_round_trip .BigEndian (oddSliceI .w8) (oddSliceIZ .w8) (by decide) (by decide),
   C1_round_trip .BigEndian (oddSliceI .w16) (oddSliceIZ .w16) (by decide) (by decide),
   C1_round_trip .BigEndian (oddSliceI .w32) (oddSliceIZ .w32) (by decide) (by decide),
   C1_round_trip .BigEndian (oddSliceI .w64) (oddSliceIZ .w64) (by decide) (by decide),
   C1_round_trip .BigEndian (oddSliceU .w8) (oddSliceUZ .w8) (by decide) (by decide),
   C1_round_trip .BigEndian (oddSliceU .w16) (oddSliceUZ .w16) (by decide) (by decide),
   C1_round_trip .BigEndian (oddSliceU .w32) (oddSliceUZ .w32) (by decide) (by decide),
   C1_round_trip .BigEndian (oddSliceU .w64) (oddSliceUZ .w64) (by decide) (by decide)⟩

/-- C2: encoding the record of one each of the 8/16/32/64-bit signed and
unsigned integers, a 32- and 64-bit float, a 64- and 128-bit complex and a
4-byte array under big-endian yields exactly the literal 70-byte sequence of
the spec; under little-endian it yields the same bytes with every multi-byte
group reversed and single bytes unchanged; decoding either sequence under
the matching order reconstructs the record exactly. -/
theorem C2_byte_order :
    Write (some []) .BigEndian (some sVal) = .ok bigBytes ∧
    Write (some []) .LittleEndian (some sVal) = .ok littleBytes ∧
    Read (some bigBytes) .BigEndian (some (.ptr sZero)) = .ok sVal ∧
    Read (some littleBytes) .LittleEndian (some (.ptr sZero)) = .ok sVal :=
  ⟨rfl, rfl, rfl, rfl⟩

/-- C3: encoding a record containing native word-width integer fields, or
a fixed array of such a type, fails with an UnsupportedType error naming the
element type; and each differently-typed unsupported field encoded
individually fails with an error naming that specific field's type. -/
theorem C3_unsupported_type :
    Write (some []) .BigEndian (some Tval) = .error (.unsupportedType "int") ∧
    Write (some []) .BigEndian (some (.unsupported "int")) =
      .error (.unsupportedType "int") ∧
    Write (some []) .BigEndian (some (.unsupported "uint")) =
      .error (.unsupportedType "uint") ∧
    Write (some []) .BigEndian (some (.unsupported "uintptr")) =
      .error (.unsupportedType "uintptr") ∧
    Write (some []) .BigEndian (some (.array (List.replicate 4 (.unsupported "int")))) =
      .error (.unsupportedType "int") :=
  ⟨rfl, rfl, rfl, rfl, rfl⟩

/-- C4: for every sink, source and byte order, `Write` with the no-value
sentinel and `Read` with the no-value sentinel as target both return
InvalidArgument, even when the sink or source itself is absent — the
result does not depend on the sink or source, so no I/O is attempted. -/
theorem C4_nil_rejected (sink source : Option (List Nat)) (o : ByteOrder) :
    Write sink o none = .error .invalidArgument ∧
    Read source o none = .error .invalidArgument :=
  ⟨rfl, rfl⟩

/-- C5: encoding writes a zero byte for every blank-field position (a
blank field of declared width w emits exactly w zero bytes); decoding a
blank field consumes and discards exactly its declared number of bytes,
stores nothing, does not error and does not require the bytes to be zero;
and the composite with interleaved blank fields of widths 4, 16, 1, 7 and
32 round-trips to equality on every addressable field. -/
theorem C5_blank_fields (o : ByteOrder) (w : Nat) (src rest : List Nat)
    (h : src.length = w) :
    encodeField o (.blank w) = .ok (List.replicate w 0) ∧
    decodeField o (.blank w) (src ++ rest) = .ok (.blank w, rest) ∧
    (∃ bs, encodeValue o blankVal = .ok bs ∧
      decodeValue o blankZero bs = .ok (blankVal, [])) := by
  refine ⟨rfl, ?_, ?_⟩
  · simp only [decodeField, readBytes_exact w src rest h]
  · obtain ⟨bs, h1, h2⟩ := rt_value o blankVal blankZero [] (by decide) (by decide)
    rw [List.append_nil] at h2
    exact ⟨bs, h1, h2⟩

/-- C5 witness: a blank field of width 3, fed the non-zero bytes 9 9 9,
decodes without error, consuming exactly those three bytes. -/
theorem C5_blank_fields_witness :
    (([9, 9, 9] : List Nat).length = 3) ∧
    (encodeField .LittleEndian (.blank 3) = .ok (List.replicate 3 0) ∧
      decodeField .LittleEndian (.blank 3) ([9, 9, 9] ++ [7]) = .ok (.blank 3, [7]) ∧
      (∃ bs, encodeValue .LittleEndian blankVal = .ok bs ∧
        decodeValue .LittleEndian blankZero bs = .ok (blankVal, []))) :=
  ⟨rfl, C5_blank_fields .LittleEndian 3 [9, 9, 9] [7] rfl⟩

/-- C6: for each byte order and width w in 16, 32, 64: the put function
writes the value into exactly the first w/8 bytes of the buffer (the bytes
beyond that prefix and the buffer length are unchanged), it is total for
every value given sufficient capacity, and the get function is its exact
inverse for every w-bit value. -/
theorem C6_put_get (o : ByteOrder) (buf : List Nat) (v16 v32 v64 : Nat)
    (hb : 8 ≤ buf.length) (h16 : v16 < 2 ^ 16) (h32 : v32 < 2 ^ 32)
    (h64 : v64 < 2 ^ 64) :
    ((PutUint16 o buf v16).drop 2 = buf.drop 2 ∧
      (PutUint16 o buf v16).length = buf.length ∧
      Uint16 o (PutUint16 o buf v16) = v16) ∧
    ((PutUint32 o buf v32).drop 4 = buf.drop 4 ∧
      (PutUint32 o buf v32).length = buf.length ∧
      Uint32 o (PutUint32 o buf v32) = v32) ∧
    ((PutUint64 o buf v64).drop 8 = buf.drop 8 ∧
      (PutUint64 o buf v64).length = buf.length ∧
      Uint64 o (PutUint64 o buf v64) = v64) := by
  refine ⟨⟨?_, ?_, ?_⟩, ⟨?_, ?_, ?_⟩, ⟨?_, ?_, ?_⟩⟩
  · exact List.drop_left' (orderBytes_length o 2 v16)
  · simp only [PutUint16, List.length_append, List.length_drop,
      orderBytes_length]
    omega
  · rw [show Uint16 o (PutUint16 o buf v16) =
        orderVal o ((orderBytes o 2 v16 ++ buf.drop 2).take 2) from rfl,
      List.take_left' (orderBytes_length o 2 v16)]
    exact orderVal_orderBytes_of_lt o 2 v16 h16
  · exact List.drop_left' (orderBytes_length o 4 v32)
  · simp only [PutUint32, List.length_append, List.length_drop,
      orderBytes_length]
    omega
  · rw [show Uint32 o (PutUint32 o buf v32) =
        orderVal o ((orderBytes o 4 v32 ++ buf.drop 4).take 4) from rfl,
      List.take_left' (orderBytes_length o 4 v32)]
    exact orderVal_orderBytes_of_lt o 4 v32 h32
  · exact List.drop_left' (orderBytes_length o 8 v64)
  · simp only [PutUint64, List.length_append, List.length_drop,
      orderBytes_length]
    omega
  · rw [show Uint64 o (PutUint64 o buf v64) =
        orderVal o ((orderBytes o 8 v64 ++ buf.drop 8).take 8) from rfl,
      List.take_left' (orderBytes_length o 8 v64)]
    exact orderVal_orderBytes_of_lt o 8 v64 h64

/-- C6 witness: concrete put-then-get round trips on a 9-byte buffer at
all three widths under little-endian. -/
theorem C6_put_get_witness :
    ((PutUint16 .LittleEndian [1, 2, 3, 4, 5, 6, 7, 8, 9] 513).drop 2 =
        ([1, 2, 3, 4, 5, 6, 7, 8, 9] : List Nat).drop 2 ∧
      (PutUint16 .LittleEndian [1, 2, 3, 4, 5, 6, 7, 8, 9] 513).length =
        ([1, 2, 3, 4, 5, 6, 7, 8, 9] : List Nat).length ∧
      Uint16 .LittleEndian (PutUint16 .LittleEndian [1, 2, 3, 4, 5, 6, 7, 8, 9] 513) = 513) ∧
    ((PutUint32 .LittleEndian [1, 2, 3, 4, 5, 6, 7, 8, 9] 66051).drop 4 =
        ([1, 2, 3, 4, 5, 6, 7, 8, 9] : List Nat).drop 4 ∧
      (PutUint32 .LittleEndian [1, 2, 3, 4, 5, 6, 7, 8, 9] 66051).length =
        ([1, 2, 3, 4, 5, 6, 7, 8, 9] : List Nat).length ∧
      Uint32 .LittleEndian (PutUint32 .LittleEndian [1, 2, 3, 4, 5, 6, 7, 8, 9] 66051) = 66051) ∧
    ((PutUint64 .LittleEndian [1, 2, 3, 4, 5, 6, 7, 8, 9] 72623859790382856).drop 8 =
        ([1, 2, 3, 4, 5, 6, 7, 8, 9] : List Nat).drop 8 ∧
      (PutUint64 .LittleEndian [1, 2, 3, 4, 5, 6, 7, 8, 9] 72623859790382856).length =
        ([1, 2, 3, 4, 5, 6, 7, 8, 9] : List Nat).length ∧
      Uint64 .LittleEndian
        (PutUint64 .LittleEndian [1, 2, 3, 4, 5, 6, 7, 8, 9] 72623859790382856) =
        72623859790382856) :=
  C6_put_get .LittleEndian [1, 2, 3, 4, 5, 6, 7, 8, 9] 513 66051 72623859790382856
    (by decide) (by decide) (by decide) (by decide)

/-- C7: Size is deterministic (it is a pure function of the value, so two
calls on an unchanged value agree) and agrees with the encoder: the encoded
byte list's length always equals the size computation's result, and for
every supported (well-formed) value both succeed, with `Write` emitting
exactly that many bytes to the sink. -/
theorem C7_size_agrees (o : ByteOrder) (v : Value) (hw : v.wf = true) :
    Except.map List.length (encodeValue o v) = dataSize v ∧
    ∃ bs, encodeValue o v = .ok bs ∧ dataSize v = .ok bs.length ∧
      Write (some []) o (some v) = .ok bs := by
  have hmap := enc_size o v
  obtain ⟨bs, h1, h2⟩ := rt_value o v v [] hw (sameShape_refl v)
  have hsize : dataSize v = .ok bs.length := by
    rw [← hmap, h1]
    rfl
  have hind : indirect v = v := by
    cases v <;> first | rfl | exact absurd hw Bool.false_ne_true
  refine ⟨hmap, bs, h1, hsize, ?_⟩
  simp only [Write, hind, h1, List.nil_append]

/-- C7 witness: size and encoder agree on the test record under
big-endian. -/
theorem C7_size_agrees_witness :
    Except.map List.length (encodeValue .BigEndian sVal) = dataSize sVal ∧
    ∃ bs, encodeValue .BigEndian sVal = .ok bs ∧ dataSize sVal = .ok bs.length ∧
      Write (some []) .BigEndian (some sVal) = .ok bs :=
  C7_size_agrees .BigEndian sVal (by decide)

/-- Size of a list of elements of constant size k is length times k. -/
theorem sizeList_const (k : Nat) :
    ∀ ts : List Value, (∀ t ∈ ts, dataSize t = .ok k) →
      sizeList ts = .ok (ts.length * k) := by
  intro ts
  induction ts with
  | nil => intro _; simp [sizeList]
  | cons t ts2 ih =>
    intro h
    have h1 := h t (by simp)
    have h2 := ih (fun t2 ht => h t2 (by simp [ht]))
    simp only [sizeList, h1, h2, Except.ok.injEq, List.length_cons]
    ring

/-- C8: decoding into a variable-length sequence never changes its
length: the element count comes from the target's current length, exactly
length times elementSize bytes are consumed from the source, and the result
is still a sequence of that length. -/
theorem C8_slice_frame (o : ByteOrder) (ts : List Value) (k : Nat)
    (src rest : List Nat) (out : Value)
    (helem : ∀ t ∈ ts, dataSize t = .ok k)
    (h : decodeValue o (.slice ts) src = .ok (out, rest)) :
    ∃ es consumed, out = .slice es ∧ es.length = ts.length ∧
      src = consumed ++ rest ∧ consumed.length = ts.length * k := by
  obtain ⟨c, hc1, hc2, hc3⟩ := dec_consume o (.slice ts) src out rest h
  cases out
  case slice es =>
    refine ⟨es, c, rfl, ?_, hc1, ?_⟩
    · exact sameShapeList_length es ts (by simpa [sameShape] using hc3)
    · have hk : dataSize (Value.slice ts) = .ok (ts.length * k) :=
        sizeList_const k ts helem
      have hcc := hc2.symm.trans hk
      simpa using hcc
  all_goals exact absurd hc3 Bool.false_ne_true

/-- C8 witness: decoding a length-2 sequence of 32-bit values from a
9-byte source consumes exactly 8 bytes and keeps length 2. -/
theorem C8_slice_frame_witness :
    ∃ es consumed,
      (Value.slice [.uint .w32 16909060, .uint .w32 84281096]) = .slice es ∧
      es.length = ([Value.uint .w32 0, .uint .w32 0] : List Value).length ∧
      ([1, 2, 3, 4, 5, 6, 7, 8, 9] : List Nat) = consumed ++ [9] ∧
      consumed.length = ([Value.uint .w32 0, .uint .w32 0] : List Value).length * 4 :=
  C8_slice_frame .BigEndian [.uint .w32 0, .uint .w32 0] 4
    [1, 2, 3, 4, 5, 6, 7, 8, 9] [9]
    (.slice [.uint .w32 16909060, .uint .w32 84281096])
    (by intro t ht; fin_cases ht <;> rfl) rfl

/-- C9: encoding a reference to a value produces exactly the same bytes
and the same error behaviour as encoding the value itself, for every value
and both byte orders; the dereference is one level deep only — a reference
to a reference is rejected as unsupported. -/
theorem C9_pointer_transparent (sink : Option (List Nat)) (o : ByteOrder)
    (v : Value) (hp : v.isPtr = false) :
    Write sink o (some (.ptr v)) = Write sink o (some v) ∧
    Write sink o (some (.ptr (.ptr v))) = .error (.unsupportedType "ptr") := by
  have hind : indirect v = v := by
    cases v <;> first | rfl | simp [Value.isPtr] at hp
  constructor
  · have h2 : indirect (Value.ptr v) = v := rfl
    simp only [Write, h2, hind]
  · rfl

/-- C9 witness: pointer transparency at the concrete test record. -/
theorem C9_pointer_transparent_witness :
    Write (some []) .BigEndian (some (.ptr sVal)) =
      Write (some []) .BigEndian (some sVal) ∧
    Write (some []) .BigEndian (some (.ptr (.ptr sVal))) =
      .error (.unsupportedType "ptr") :=
  C9_pointer_transparent (some []) .BigEndian sVal rfl

/-- C10: Read accepts a bare (non-pointer) slice as decode target: it is
not rejected as an invalid argument, and the decoded elements are the ones
the caller observes through the slice. -/
theorem C10_bare_slice (o : ByteOrder) (es : List Value) (src : List Nat)
    (v : Value) (rest : List Nat)
    (h : decodeValue o (.slice es) src = .ok (v, rest)) :
    Read (some src) o (some (.slice es)) = .ok v := by
  simp only [Read, readInto, h]

/-- C10 witness: the test's concrete slice read — 8 source bytes into a
length-2 int32 slice. -/
theorem C10_bare_slice_witness :
    Read (some [1, 2, 3, 4, 5, 6, 7, 8]) .BigEndian
      (some (.slice [.int .w32 0, .int .w32 0])) =
      .ok (.slice [.int .w32 16909060, .int .w32 84281096]) :=
  C10_bare_slice .BigEndian [.int .w32 0, .int .w32 0] [1, 2, 3, 4, 5, 6, 7, 8]
    (.slice [.int .w32 16909060, .int .w32 84281096]) [] rfl

end binary
